import Mathlib

/-!
Verification of the VNRT map-generation core: the segment rasterizer
(`blend2map`), the grid compositor row logic (`get_blend`), and the
rule-based refinement engine (`refine_results`).  Pure functions are
embedded directly; per-row exception handling is embedded as
`Except`-valued computations; numpy array arithmetic is embedded with
explicit machine-integer wrapping where it matters.
-/

/-! ## Calendar model

The repository imports `split_doy`, `ordinal_to_doy` and `doy_to_ordinal`
from its `common` package, whose source file is not part of the sources
under verification.  They are modelled here from the spec. -/

/-- Modelled from the spec: the missing `common` module works with ordinal
day numbers, "integer day count from a fixed epoch" (python
`datetime.date.toordinal`, where day 1 is January 1 of year 1 of the
proleptic Gregorian calendar).  `daysBeforeYear y` is the number of days
strictly before January 1 of year `y`, so the ordinal of `y`-January-1 is
`daysBeforeYear y + 1`. -/
def daysBeforeYear (y : Nat) : Nat :=
  365 * (y - 1) + (y - 1) / 4 - (y - 1) / 100 + (y - 1) / 400

/-- Modelled from the spec: bounded linear search for the calendar year
containing a given ordinal day, starting from a lower estimate of the
year and moving forward while the ordinal is beyond the end of the
candidate year. -/
def yearSearch (o : Nat) : Nat → Nat → Nat
  | y, 0 => y
  | y, Nat.succ fuel =>
    if o ≤ daysBeforeYear (y + 1) then y else yearSearch o (y + 1) fuel

/-- Modelled from the spec: the calendar year containing ordinal day `o`
(the unique `y` with `daysBeforeYear y < o ≤ daysBeforeYear (y + 1)` for
ordinals in the python `datetime` domain, years 1 to 9999). -/
def yearOf (o : Nat) : Nat := yearSearch o (max 1 (o / 366)) 9999

/-- Modelled from the spec: the day-of-year (1-based) of ordinal day `o`. -/
def doyOf (o : Nat) : Nat := o - daysBeforeYear (yearOf o)

/-- Modelled from the spec: the missing `ordinal_to_doy` converts an
ordinal day number into the combined `YYYYDDD` day-of-year format used
throughout the rasterizer (year times 1000 plus day of year). -/
def ordinalToDoy (o : Nat) : Nat := yearOf o * 1000 + doyOf o

/-- Modelled from the spec: the missing `doy_to_ordinal` converts a
`YYYYDDD` value back to an ordinal day number. -/
def doyToOrdinal (d : Nat) : Nat := daysBeforeYear (d / 1000) + d % 1000

/-- Modelled from the spec: the missing `split_doy` splits a `YYYYDDD`
value into its year and day-of-year components. -/
def split_doy (d : Nat) : Nat × Nat := (d / 1000, d % 1000)

/-! ## Numpy integer arithmetic model -/

/-- Two's-complement wrap into the signed 8-bit range. -/
def int8_wrap (v : Int) : Int := (v + 128) % 256 - 128

/-- Two's-complement wrap into the signed 16-bit range. -/
def int16_wrap (v : Int) : Int := (v + 32768) % 65536 - 32768

/-- Two's-complement wrap into the signed 32-bit range. -/
def int32_wrap (v : Int) : Int := (v + 2147483648) % 4294967296 - 2147483648

/-- Adding a python int scalar `s` to an `np.int8` array element `x`
under numpy 1.x value-based casting (the numpy generation this code was
written for): the scalar contributes `np.min_scalar_type(s)`, which is
then promoted with `int8`.  A scalar already in the int8 range keeps the
array at int8; a scalar in the uint8 or int16 range gives
`promote_types(int8, uint8) = promote_types(int8, int16) = int16`; a
scalar in the uint16 or int32 range gives int32.  The source only ever
uses the scalars 254 and 255 here, both in the uint8 range. -/
def npInt8PlusPyInt (x s : Int) : Int :=
  if -128 ≤ s ∧ s ≤ 127 then int8_wrap (x + s)
  else if -32768 ≤ s ∧ s ≤ 32767 then int16_wrap (x + s)
  else int32_wrap (x + s)

/-- The element value of `np.zeros((lines, samples, 16), np.int8) + 255`
(`get_blend`, line 68): an int16 array holding 255 everywhere. -/
def gridInit : Int := npInt8PlusPyInt 0 255

/-- The element value of `np.zeros(2016 - 2001 + 1, np.int8) + 254`
(`blend2map`, line 116): an int16 array holding 254 everywhere. -/
def mapInit : Int := npInt8PlusPyInt 0 254

/-! ## Segment rasterizer (`blend2map`) -/

/-- One classified time segment of a pixel record: ordinal start day,
ordinal end day (field `stop` embeds the record field `end`), and the
class code (field `cls` embeds the record field `class`). -/
structure Segment where
  start : Nat
  stop : Nat
  cls : Int
deriving DecidableEq, Repr

/-- A 16-slot annual class vector, one slot per year 2001 to 2016. -/
abbrev Vec16 := Fin 16 → Int

/-- The last segment of the non-empty list `s :: rest`. -/
def lastSeg : Segment → List Segment → Segment
  | s, [] => s
  | _, b :: r => lastSeg b r

/-- The end day of the last segment of the non-empty list `s :: rest`. -/
def lastStop (s : Segment) (rest : List Segment) : Nat := (lastSeg s rest).stop

/-- Leading boundary extrapolation (`blend2map` lines 117-120): if the
first segment starts after `YYYYDDD` value 2001270, prepend a copy of the
first segment (`np.append(ts[0], ts)`) and reset the copy to span from
2001-001 to the original first segment's start.  The copy keeps the first
segment's class. -/
def extrapLead (ts : List Segment) : List Segment :=
  match ts with
  | [] => []
  | h :: t =>
    if ordinalToDoy h.start > 2001270 then
      { start := doyToOrdinal 2001001, stop := h.start, cls := h.cls } :: h :: t
    else h :: t

/-- Trailing boundary extrapolation (`blend2map` lines 121-124): if the
last segment ends before `YYYYDDD` value 2016001, append a copy of the
current first element (`np.append(ts, ts[0])`) and reset the copy to span
from the previous last segment's end to 2016-365.  The copy keeps the
first element's class. -/
def extrapTrail (ts : List Segment) : List Segment :=
  match ts with
  | [] => []
  | s :: r =>
    if ordinalToDoy (lastStop s r) < 2016001 then
      (s :: r) ++ [{ start := lastStop s r, stop := doyToOrdinal 2016365, cls := s.cls }]
    else s :: r

/-- The calendar year a segment start is attributed to (`blend2map`
lines 126-129): the year of the start, bumped to the following year when
the start's day-of-year exceeds 270. -/
def startYearAdj (s : Nat) : Nat :=
  if (split_doy (ordinalToDoy s)).2 > 270 then (split_doy (ordinalToDoy s)).1 + 1
  else (split_doy (ordinalToDoy s)).1

/-- The calendar year of a segment end (`blend2map` line 127). -/
def endYearOf (e : Nat) : Nat := (split_doy (ordinalToDoy e)).1

/-- Write one segment into the annual vector (`blend2map` lines 130-132):
slot `k` (year `2001 + k`) receives the segment's class when that year
lies in the attributed `[start year, end year]` range; the class value is
cast into the vector's int16 element type. -/
def fillSeg (m : Vec16) (x : Segment) : Vec16 :=
  fun k =>
    if startYearAdj x.start ≤ 2001 + k.val ∧ 2001 + k.val ≤ endYearOf x.stop then
      int16_wrap x.cls
    else m k

/-- The segment rasterizer `blend2map`: initialize all 16 slots to the
fill value, apply both boundary extrapolations, then write each segment
in list order (later segments overwrite earlier ones). -/
def blend2map (ts : List Segment) : Vec16 :=
  (extrapTrail (extrapLead ts)).foldl fillSeg (fun _ => mapInit)

/-- Gap-free adjacency down the non-empty list `s :: rest`: each
segment's successor starts no later than the segment ends. -/
def chainB : Segment → List Segment → Bool
  | _, [] => true
  | a, b :: r => decide (b.start ≤ a.stop) && chainB b r

/-- Time ordering down the non-empty list `s :: rest`: starts are
non-decreasing. -/
def orderedB : Segment → List Segment → Bool
  | _, [] => true
  | a, b :: r => decide (a.start ≤ b.start) && orderedB b r

/-- Segment `s` writes slot `k` of the annual vector: year `2001 + k`
lies between the attributed start year and the end year. -/
def inSlot (s : Segment) (k : Fin 16) : Prop :=
  startYearAdj s.start ≤ 2001 + k.val ∧ 2001 + k.val ≤ endYearOf s.stop

/-! ## Majority vote (`np.bincount(...).argmax()`) -/

/-- Number of occurrences of `v` in `l` (one bin of `np.bincount`). -/
def countEq (l : List Nat) (v : Nat) : Nat := (l.filter (fun x => x == v)).length

/-- The largest value in `l` (0 for an empty list); `np.bincount l` has
`maxList l + 1` bins. -/
def maxList (l : List Nat) : Nat := l.foldr max 0

/-- One step of `argmax` over the bins of `np.bincount l`, scanning bin
indices in increasing order; a strict comparison keeps the first bin
attaining the maximum, as `np.argmax` does. -/
def argmaxStep (l : List Nat) (best v : Nat) : Nat :=
  if countEq l v > countEq l best then v else best

/-- `np.bincount(l).argmax()`: the smallest value among those occurring
most often in `l`.  All call sites in the source reach this only with a
non-empty `l` (numpy would raise on an empty one). -/
def bincountArgmax (l : List Nat) : Nat :=
  (List.range (maxList l + 1)).foldl (argmaxStep l) 0

/-! ## Grid compositor row logic (`get_blend`, lines 73-94) -/

/-- One raster row of the composite output, indexed by sample (column). -/
abbrev Row := Nat → Vec16

/-- The freshly initialized output row: every slot holds `gridInit`. -/
def initRow : Row := fun _ _ => gridInit

/-- Write the rasterized records of one line cache into the row
(`get_blend` lines 80-82): each record names its column `px` and its
pixel's segment list. -/
def writeRecords (r : Row) (recs : List (Nat × List Segment)) : Row :=
  recs.foldl (fun acc pr => fun j => if j = pr.1 then blend2map pr.2 else acc j) r

/-- The land-cover fallback fill (`get_blend` lines 83-85): every pixel
of the row whose 16 slots all still equal 255 is filled with the most
frequent class of its land-cover context vector, cast into the row's
int16 element type. -/
def fallbackRow (samples : Nat) (lcrow : Nat → List Nat) (r : Row) : Row :=
  fun j =>
    if j < samples ∧ (∀ k : Fin 16, r j k = 255) then
      fun _ => int16_wrap (bincountArgmax (lcrow j))
    else r j

/-- Processing of one line whose cache was found: rasterize every record,
then fallback-fill the still-unresolved pixels. -/
def processRow (recs : List (Nat × List Segment)) (samples : Nat)
    (lcrow : Nat → List Nat) : Row :=
  fallbackRow samples lcrow (writeRecords initRow recs)

/-- The `get_blend` line loop (lines 73-94), modelled without file I/O:
line `i` is given its cache contents (`some recs`) or `none` when no
blended file was found; a found cache is processed and bumps the success
count, a missing cache leaves the row at its initial fill. -/
def getBlendLoop (lc : Nat → Nat → List Nat) (samples : Nat) :
    Nat → List (Option (List (Nat × List Segment))) → List Row × Nat
  | _, [] => ([], 0)
  | i, c :: cs =>
    match c with
    | some recs =>
      (processRow recs samples (lc i) :: (getBlendLoop lc samples (i + 1) cs).1,
       (getBlendLoop lc samples (i + 1) cs).2 + 1)
    | none =>
      (initRow :: (getBlendLoop lc samples (i + 1) cs).1,
       (getBlendLoop lc samples (i + 1) cs).2)

/-! ## Refinement rule engine (`refine_results`, lines 67-131) -/

/-- A 16-slot class vector with non-negative entries, as read back from
the classified map and the land-cover stack. -/
abbrev Vec16N := Fin 16 → Nat

/-- The MODIS-to-fine class lookup table `m2c` (`refine_results` line 37),
29 entries. -/
def m2c : List Nat :=
  [0, 2, 2, 4, 4, 5, 10, 10, 9, 9, 10, 11, 12, 13, 12, 16, 16, 25, 0,
   0, 0, 0, 0, 0, 0, 0, 0, 0, 0]

/-- The 16 values of a pixel vector as a list, in slot order. -/
def vals (p : Vec16N) : List Nat := (List.finRange 16).map p

/-- The slot positions whose fine class is unclassified (`p == 0`). -/
def ucMask (p : Vec16N) : List (Fin 16) :=
  (List.finRange 16).filter (fun k => p k == 0)

/-- The classified (non-zero) values of the vector, in slot order
(`p[p != 0]`). -/
def nzList (p : Vec16N) : List Nat := (vals p).filter (fun x => !(x == 0))

/-- Assign `v` to every unclassified slot (`p[p == 0] = v`). -/
def fill0 (p : Vec16N) (v : Nat) : Vec16N := fun k => if p k = 0 then v else p k

/-- One iteration of the interior forward fill (`refine_results` lines
95-97): if slot `k` is unclassified, copy the value of slot `k - 1` into
it.  `Fin` subtraction wraps exactly like python list indexing does, so
iteration `k = 0` would read slot 15. -/
def ffStep (q : Vec16N) (k : Fin 16) : Vec16N :=
  if q k = 0 then fun j => if j = k then q (k - 1) else q j else q

/-- The interior forward fill loop, left to right over all 16 slots, each
iteration seeing the fills made by the previous ones. -/
def forwardFill (p : Vec16N) : Vec16N := (List.finRange 16).foldl ffStep p

/-- Rule 1, unclassified fill (`refine_results` lines 75-98).  The
substitute label is `m2c` indexed by the majority context class over the
unclassified positions; an index beyond the 29 entries of `m2c` is a
python `IndexError`, embedded as `Except.error ()`. -/
def rule1 (p plc : Vec16N) : Except Unit Vec16N :=
  if 0 ∈ vals p then
    if bincountArgmax ((ucMask p).map plc) < m2c.length then
      (if countEq (vals p) 0 > 10 then
         Except.ok (fill0 p (m2c.getD (bincountArgmax ((ucMask p).map plc)) 0))
       else if p 0 = 0 then
         (if m2c.getD (bincountArgmax ((ucMask p).map plc)) 0 = 13 ∨
             m2c.getD (bincountArgmax ((ucMask p).map plc)) 0 = 25 then
            Except.ok (fill0 p (m2c.getD (bincountArgmax ((ucMask p).map plc)) 0))
          else if nzList p ≠ [] then Except.ok (fill0 p ((nzList p).headD 0))
          else Except.error ())
       else if p 15 = 0 then
         (if m2c.getD (bincountArgmax ((ucMask p).map plc)) 0 = 13 ∨
             m2c.getD (bincountArgmax ((ucMask p).map plc)) 0 = 25 then
            Except.ok (fill0 p (m2c.getD (bincountArgmax ((ucMask p).map plc)) 0))
          else if nzList p ≠ [] then Except.ok (fill0 p ((nzList p).getLastD 0))
          else Except.error ())
       else if countEq (vals p) 0 < 3 then Except.ok (forwardFill p)
       else Except.ok p)
    else Except.error ()
  else Except.ok p

/-- Rule 2, short leading plantation (`refine_results` lines 101-108):
when slot 3 is not plantation (18), leading plantation slots 0-2 take
slot 3's class. -/
def rule2 (p : Vec16N) : Vec16N :=
  if p 3 = 18 then p
  else fun k => if (k = 0 ∨ k = 1 ∨ k = 2) ∧ p k = 18 then p 3 else p k

/-- Rule 3, urban in barren context (`refine_results` lines 111-113). -/
def rule3 (p plc : Vec16N) : Vec16N :=
  if 5 ≤ ((List.finRange 16).filter (fun k => p k == 13 && plc k == 16)).length then
    fun k => if p k = 13 ∧ plc k = 16 then 16 else p k
  else p

/-- Rule 4, urban in grassland context (`refine_results` lines 115-117). -/
def rule4 (p plc : Vec16N) : Vec16N :=
  if 5 ≤ ((List.finRange 16).filter (fun k => p k == 13 && plc k == 10)).length then
    fun k => if p k = 13 ∧ plc k = 10 then 10 else p k
  else p

/-- The slot positions that are urban (13) in the fine class but not
urban in the context (`(p == 13) & (plc != 13)`). -/
def urbanNotCtx (p plc : Vec16N) : List (Fin 16) :=
  (List.finRange 16).filter (fun k => p k == 13 && !(plc k == 13))

/-- Rule 5, general urban majority correction (`refine_results` lines
120-125).  The deciding label is `plc_label` from line 71: the majority
class of the whole 16-value context vector. -/
def rule5 (p plc : Vec16N) : Vec16N :=
  if 8 ≤ (urbanNotCtx p plc).length then
    (if bincountArgmax (vals plc) = 10 then
       fun k => if p k = 13 ∧ plc k ≠ 13 then 10 else p k
     else if bincountArgmax (vals plc) = 12 then
       fun k => if p k = 13 ∧ plc k ≠ 13 then 12 else p k
     else p)
  else p

/-- Rule 6, urban-to-agriculture fix (`refine_results` lines 128-131):
guarded by slot 0 urban and slot 15 cropland; every urban slot takes the
`m2c` substitute of the majority context class over the urban slots.  The
`m2c` lookup can again raise a python `IndexError`. -/
def rule6 (p plc : Vec16N) : Except Unit Vec16N :=
  if p 0 = 13 ∧ p 15 = 12 then
    (if bincountArgmax (((List.finRange 16).filter (fun k => p k == 13)).map plc) < m2c.length then
       Except.ok (fun k =>
         if p k = 13 then
           m2c.getD (bincountArgmax (((List.finRange 16).filter (fun k => p k == 13)).map plc)) 0
         else p k)
     else Except.error ())
  else Except.ok p

/-- The per-pixel refinement: the six rules in order, each rule's output
feeding the next; a lookup failure anywhere surfaces as the pixel's
exception. -/
def refinePixel (p plc : Vec16N) : Except Unit Vec16N :=
  match rule1 p plc with
  | Except.error e => Except.error e
  | Except.ok p1 => rule6 (rule5 (rule4 (rule3 (rule2 p1) plc) plc) plc) plc

/-- Refine every pixel of one row, stopping at the first exception. -/
def refineRow : List (Vec16N × Vec16N) → Except Unit (List Vec16N)
  | [] => Except.ok []
  | px :: rest =>
    match refinePixel px.1 px.2 with
    | Except.error e => Except.error e
    | Except.ok v =>
      match refineRow rest with
      | Except.error e => Except.error e
      | Except.ok vs => Except.ok (v :: vs)

/-- Refine every row of the grid, stopping at the first exception. -/
def refineRows : List (List (Vec16N × Vec16N)) → Except Unit (List (List Vec16N))
  | [] => Except.ok []
  | row :: rest =>
    match refineRow row with
    | Except.error e => Except.error e
    | Except.ok v =>
      match refineRows rest with
      | Except.error e => Except.error e
      | Except.ok vs => Except.ok (v :: vs)

/-- The `refine_results` processing stage (lines 62-138), modelled
without file I/O: the whole double loop over rows and pixels runs inside
one `try`; any exception anywhere makes the function log an error and
return status code 3, producing no refined grid. -/
def refine_results (grid : List (List (Vec16N × Vec16N))) :
    Except Nat (List (List Vec16N)) :=
  match refineRows grid with
  | Except.ok g => Except.ok g
  | Except.error _ => Except.error 3

/-- The value of slot `k` of a successfully refined pixel, `none` when
the computation raised. -/
def okAt (e : Except Unit Vec16N) (k : Fin 16) : Option Nat :=
  match e with
  | Except.ok v => some (v k)
  | Except.error _ => none

/-- Successful completion flag of a refinement run. -/
def refineOk (e : Except Unit (List (List Vec16N))) : Bool :=
  match e with
  | Except.ok _ => true
  | Except.error _ => false

/-- Stated from the spec claim for rule 5, for comparison with the
source's `rule5`: here the relabeling class is the majority context class
computed across the urban-not-urban-context positions themselves, rather
than across the whole 16-value context vector. -/
def rule5_spec (p plc : Vec16N) : Vec16N :=
  if 8 ≤ (urbanNotCtx p plc).length then
    (if bincountArgmax ((urbanNotCtx p plc).map plc) = 10 ∨
        bincountArgmax ((urbanNotCtx p plc).map plc) = 12 then
       fun k =>
         if p k = 13 ∧ plc k ≠ 13 then bincountArgmax ((urbanNotCtx p plc).map plc)
         else p k
     else p)
  else p

/-! ## Concrete inputs used by the claims -/

/-- A first segment starting on day 300 of 2001 with class 5. -/
def segC1a : Segment := ⟨doyToOrdinal 2001300, doyToOrdinal 2005100, 5⟩

/-- A second segment reaching the end of the window with class 7. -/
def segC1b : Segment := ⟨doyToOrdinal 2005100, doyToOrdinal 2016365, 7⟩

/-- A pixel vector urban (13) at slots 0-7 and class 5 elsewhere. -/
def pC2 : Vec16N := fun k => if k.val ≤ 7 then 13 else 5

/-- A context vector cropland (12) at slots 0-7 and grassland (10)
elsewhere: the majority over the urban slots is 12 while the majority
over the whole vector is 10 (8-8 tie broken toward the smaller code). -/
def plcC2 : Vec16N := fun k => if k.val ≤ 7 then 12 else 10

/-- A pixel with one unclassified slot. -/
def pBad : Vec16N := fun k => if k = 0 then 0 else 5

/-- A context vector whose code 99 lies beyond the 29 entries of `m2c`,
so rule 1 raises an `IndexError` for `pBad`. -/
def plcBad : Vec16N := fun _ => 99

/-- A fully classified pixel that refines without incident. -/
def pGood : Vec16N := fun _ => 5

/-- A benign context vector. -/
def plcGood : Vec16N := fun _ => 10

/-- A pixel matching both the rule 1 guard (slot 1 unclassified) and the
rule 2 guard (slot 0 plantation, slot 3 not plantation). -/
def pC8 : Vec16N := fun k => if k.val = 0 then 18 else if k.val = 1 then 0 else 5

/-- An all-grassland context vector. -/
def plcC8 : Vec16N := fun _ => 10

/-- The output of rule 1 on `pC8`: the interior forward fill copies the
plantation code of slot 0 into slot 1. -/
def qC8 : Vec16N := fun k => if k.val ≤ 1 then 18 else 5

/-- A context list where 10 is the most frequent value. -/
def lcW : List Nat := [10, 10, 10, 12, 12, 10, 10, 10, 10, 10, 10, 10, 10, 10, 10, 10]

/-- A per-sample context assignment used by the compositor claims. -/
def lcWf : Nat → List Nat := fun _ => lcW

/-- A per-line, per-sample context assignment for the line loop. -/
def lcWg : Nat → Nat → List Nat := fun _ _ => lcW

/-- A segment covering 2001-001 up to 2008-100 with class 5. -/
def segW0 : Segment := ⟨doyToOrdinal 2001001, doyToOrdinal 2008100, 5⟩

/-- A segment covering 2008-100 up to 2016-365 with class 7. -/
def segW1 : Segment := ⟨doyToOrdinal 2008100, doyToOrdinal 2016365, 7⟩

/-- A pixel vector urban (13) at slots 0-8 and class 5 elsewhere. -/
def pW2 : Vec16N := fun k => if k.val ≤ 8 then 13 else 5

/-- An all-grassland context vector. -/
def plcW2 : Vec16N := fun _ => 10

/-- A pixel with slot 0 classified, slot 1 unclassified, rest class 2. -/
def pW10 : Vec16N := fun k => if k.val = 0 then 1 else if k.val = 1 then 0 else 2

/-- An all-grassland context vector. -/
def plcW10 : Vec16N := fun _ => 10

/-! ## Calendar lemmas -/

theorem daysBeforeYear_mono {a b : Nat} (h : a ≤ b) :
    daysBeforeYear a ≤ daysBeforeYear b := by
  unfold daysBeforeYear
  have hnm : a - 1 ≤ b - 1 := by omega
  have h4 : (a - 1) / 4 ≤ (b - 1) / 4 := Nat.div_le_div_right hnm
  have h400 : (a - 1) / 400 ≤ (b - 1) / 400 := Nat.div_le_div_right hnm
  have h100 : (b - 1) / 100 ≤ (a - 1) / 100 + ((b - 1) - (a - 1)) := by omega
  have ht1 : (a - 1) / 100 ≤ a - 1 := Nat.div_le_self _ _
  have ht2 : (b - 1) / 100 ≤ b - 1 := Nat.div_le_self _ _
  omega

theorem daysBeforeYear_succ_lower {y : Nat} (h : 1 ≤ y) :
    daysBeforeYear y + 365 ≤ daysBeforeYear (y + 1) := by
  unfold daysBeforeYear; omega

theorem daysBeforeYear_succ_upper (y : Nat) :
    daysBeforeYear (y + 1) ≤ daysBeforeYear y + 366 := by
  unfold daysBeforeYear; omega

theorem daysBeforeYear_succ_le_mul (y : Nat) :
    daysBeforeYear (y + 1) ≤ 366 * y := by
  unfold daysBeforeYear; omega

theorem exists_year {o : Nat} (h1 : 1 ≤ o) (h2 : o ≤ daysBeforeYear 10000) :
    ∃ Y, 1 ≤ Y ∧ Y ≤ 9999 ∧ daysBeforeYear Y < o ∧ o ≤ daysBeforeYear (Y + 1) := by
  have hP1 : daysBeforeYear 1 < o := by
    have : daysBeforeYear 1 = 0 := by unfold daysBeforeYear; omega
    omega
  refine ⟨Nat.findGreatest (fun y => daysBeforeYear y < o) 9999, ?_, ?_, ?_, ?_⟩
  · exact Nat.le_findGreatest (m := 1) (n := 9999) (by omega) hP1
  · exact Nat.findGreatest_le 9999
  · exact Nat.findGreatest_spec (P := fun y => daysBeforeYear y < o) (m := 1)
      (n := 9999) (by omega) hP1
  · set Y := Nat.findGreatest (fun y => daysBeforeYear y < o) 9999 with hY
    by_cases hc : Y = 9999
    · rw [hc]; exact h2
    · have hlt : Y < 9999 := lt_of_le_of_ne (Nat.findGreatest_le 9999) hc
      have := Nat.findGreatest_is_greatest (P := fun y => daysBeforeYear y < o)
        (n := 9999) (k := Y + 1) (by omega) (by omega)
      simp only [not_lt] at this
      exact this

theorem yearSearch_eq {o Y : Nat} (h1 : daysBeforeYear Y < o)
    (h2 : o ≤ daysBeforeYear (Y + 1)) :
    ∀ fuel y, y ≤ Y → Y ≤ y + fuel → yearSearch o y fuel = Y := by
  intro fuel
  induction fuel with
  | zero =>
    intro y hy1 hy2
    have hyY : y = Y := by omega
    subst hyY
    rfl
  | succ n ih =>
    intro y hy1 hy2
    by_cases hc : o ≤ daysBeforeYear (y + 1)
    · have hyY : y = Y := by
        by_contra hne
        have hlt : y < Y := lt_of_le_of_ne hy1 hne
        have : daysBeforeYear (y + 1) ≤ daysBeforeYear Y := daysBeforeYear_mono (by omega)
        omega
      subst hyY
      rw [yearSearch, if_pos hc]
    · have hyY : y < Y := by
        by_contra hge
        have : y = Y := by omega
        subst this
        exact hc h2
      rw [yearSearch, if_neg hc]
      exact ih (y + 1) (by omega) (by omega)

theorem yearOf_eq {o Y : Nat} (h1 : daysBeforeYear Y < o)
    (h2 : o ≤ daysBeforeYear (Y + 1)) (hY1 : 1 ≤ Y) (hY2 : Y ≤ 9999) :
    yearOf o = Y := by
  unfold yearOf
  apply yearSearch_eq h1 h2
  · have ho : o ≤ 366 * Y := le_trans h2 (daysBeforeYear_succ_le_mul Y)
    have : o / 366 ≤ Y := by omega
    omega
  · have := Nat.le_max_left 1 (o / 366)
    omega

theorem yearOf_spec {o : Nat} (h1 : 1 ≤ o) (h2 : o ≤ daysBeforeYear 10000) :
    daysBeforeYear (yearOf o) < o ∧ o ≤ daysBeforeYear (yearOf o + 1) ∧
      1 ≤ yearOf o ∧ yearOf o ≤ 9999 := by
  obtain ⟨Y, ha, hb, hc, hd⟩ := exists_year h1 h2
  rw [yearOf_eq hc hd ha hb]
  exact ⟨hc, hd, ha, hb⟩

theorem doyOf_bounds {o : Nat} (h1 : 1 ≤ o) (h2 : o ≤ daysBeforeYear 10000) :
    1 ≤ doyOf o ∧ doyOf o ≤ 366 := by
  obtain ⟨ha, hb, _, _⟩ := yearOf_spec h1 h2
  have := daysBeforeYear_succ_upper (yearOf o)
  unfold doyOf
  omega

theorem split_ordinalToDoy {o : Nat} (h1 : 1 ≤ o) (h2 : o ≤ daysBeforeYear 10000) :
    split_doy (ordinalToDoy o) = (yearOf o, doyOf o) := by
  obtain ⟨hd1, hd2⟩ := doyOf_bounds h1 h2
  unfold split_doy ordinalToDoy
  have e1 : (yearOf o * 1000 + doyOf o) / 1000 = yearOf o := by omega
  have e2 : (yearOf o * 1000 + doyOf o) % 1000 = doyOf o := by omega
  rw [e1, e2]

/-! ## Rasterizer lemmas -/

theorem int16_wrap_id {v : Int} (h1 : -32768 ≤ v) (h2 : v ≤ 32767) :
    int16_wrap v = v := by
  unfold int16_wrap; omega

theorem lastSeg_mem : ∀ (rest : List Segment) (s0 : Segment),
    lastSeg s0 rest ∈ s0 :: rest := by
  intro rest
  induction rest with
  | nil => intro s0; simp [lastSeg]
  | cons b r ih =>
    intro s0
    have := ih b
    simp only [lastSeg]
    exact List.mem_cons_of_mem s0 this

theorem ordinalToDoy_le_2001001 {o : Nat} (h1 : 1 ≤ o)
    (h2 : o ≤ doyToOrdinal 2001001) : ordinalToDoy o ≤ 2001001 := by
  have hb : doyToOrdinal 2001001 ≤ daysBeforeYear 10000 := by decide
  have hr : o ≤ daysBeforeYear 10000 := le_trans h2 hb
  obtain ⟨ha, hb2, hc, hd⟩ := yearOf_spec h1 hr
  obtain ⟨hd1, hd2⟩ := doyOf_bounds h1 hr
  have h2e : o ≤ daysBeforeYear 2001 + 1 := by
    have : doyToOrdinal 2001001 = daysBeforeYear 2001 + 1 := by decide
    omega
  unfold ordinalToDoy
  rcases Nat.lt_trichotomy (yearOf o) 2001 with hlt | heq | hgt
  · omega
  · have : doyOf o = 1 := by
      unfold doyOf
      rw [heq]
      rw [heq] at ha
      omega
    omega
  · exfalso
    have hm : daysBeforeYear 2002 ≤ daysBeforeYear (yearOf o) :=
      daysBeforeYear_mono (by omega)
    have hs : daysBeforeYear 2001 + 365 ≤ daysBeforeYear 2002 :=
      daysBeforeYear_succ_lower (by omega)
    omega

theorem ordinalToDoy_ge_2016001 {o : Nat} (hr : o ≤ daysBeforeYear 10000)
    (h : doyToOrdinal 2016365 ≤ o) : 2016001 ≤ ordinalToDoy o := by
  have h1 : 1 ≤ o := by
    have : 1 ≤ doyToOrdinal 2016365 := by decide
    omega
  obtain ⟨ha, hb2, hc, hd⟩ := yearOf_spec h1 hr
  obtain ⟨hd1, hd2⟩ := doyOf_bounds h1 hr
  have he : daysBeforeYear 2016 + 365 ≤ o := by
    have : doyToOrdinal 2016365 = daysBeforeYear 2016 + 365 := by decide
    omega
  unfold ordinalToDoy
  by_cases hy : yearOf o ≤ 2015
  · exfalso
    have : daysBeforeYear (yearOf o + 1) ≤ daysBeforeYear 2016 :=
      daysBeforeYear_mono (by omega)
    omega
  · omega

theorem extrapLead_noop {s0 : Segment} {rest : List Segment} (h1 : 1 ≤ s0.start)
    (h2 : s0.start ≤ doyToOrdinal 2001001) : extrapLead (s0 :: rest) = s0 :: rest := by
  have hle : ordinalToDoy s0.start ≤ 2001001 := ordinalToDoy_le_2001001 h1 h2
  simp only [extrapLead]
  rw [if_neg (by omega)]

theorem extrapTrail_noop {s0 : Segment} {rest : List Segment}
    (hr2 : lastStop s0 rest ≤ daysBeforeYear 10000)
    (h : doyToOrdinal 2016365 ≤ lastStop s0 rest) :
    extrapTrail (s0 :: rest) = s0 :: rest := by
  have hge : 2016001 ≤ ordinalToDoy (lastStop s0 rest) := ordinalToDoy_ge_2016001 hr2 h
  simp only [extrapTrail]
  rw [if_neg (by omega)]

theorem startYearAdj_le {o Y : Nat} (h1 : 1 ≤ o) (hY1 : 2001 ≤ Y) (hY2 : Y ≤ 2016)
    (h : o ≤ daysBeforeYear Y + 270) : startYearAdj o ≤ Y := by
  have hb : daysBeforeYear Y + 270 ≤ daysBeforeYear 10000 := by
    have hm : daysBeforeYear Y ≤ daysBeforeYear 2016 := daysBeforeYear_mono hY2
    have hx : daysBeforeYear 2016 + 270 ≤ daysBeforeYear 10000 := by decide
    omega
  have hr : o ≤ daysBeforeYear 10000 := le_trans h hb
  obtain ⟨ha, hb2, hc, hd⟩ := yearOf_spec h1 hr
  obtain ⟨hd1, hd2⟩ := doyOf_bounds h1 hr
  unfold startYearAdj
  rw [split_ordinalToDoy h1 hr]
  simp only
  rcases Nat.lt_trichotomy (yearOf o) Y with hlt | heq | hgt
  · split <;> omega
  · have hdoy : doyOf o ≤ 270 := by
      unfold doyOf
      rw [heq]
      rw [heq] at ha
      omega
    rw [if_neg (by omega)]
    omega
  · exfalso
    have hm1 : daysBeforeYear (Y + 1) ≤ daysBeforeYear (yearOf o) :=
      daysBeforeYear_mono (by omega)
    have hm2 : daysBeforeYear Y + 365 ≤ daysBeforeYear (Y + 1) :=
      daysBeforeYear_succ_lower (by omega)
    omega

theorem endYearOf_ge {o Y : Nat} (h1 : 1 ≤ o) (hr : o ≤ daysBeforeYear 10000)
    (h : daysBeforeYear Y + 270 ≤ o) : Y ≤ endYearOf o := by
  obtain ⟨ha, hb2, hc, hd⟩ := yearOf_spec h1 hr
  unfold endYearOf
  rw [split_ordinalToDoy h1 hr]
  simp only
  by_contra hlt
  push_neg at hlt
  have : daysBeforeYear (yearOf o + 1) ≤ daysBeforeYear Y :=
    daysBeforeYear_mono (by omega)
  omega

theorem exists_covering : ∀ (rest : List Segment) (s0 : Segment) (o : Nat),
    chainB s0 rest = true → s0.start ≤ o → o ≤ lastStop s0 rest →
    ∃ s, s ∈ s0 :: rest ∧ s.start ≤ o ∧ o ≤ s.stop := by
  intro rest
  induction rest with
  | nil =>
    intro s0 o _ hs ho
    exact ⟨s0, by simp, hs, ho⟩
  | cons b r ih =>
    intro s0 o hch hs ho
    by_cases hco : o ≤ s0.stop
    · exact ⟨s0, by simp, hs, hco⟩
    · have hch2 : b.start ≤ s0.stop ∧ chainB b r = true := by
        simpa [chainB, Bool.and_eq_true, decide_eq_true_eq] using hch
      obtain ⟨s, hmem, h3, h4⟩ := ih b o hch2.2 (by omega) ho
      exact ⟨s, List.mem_cons_of_mem s0 hmem, h3, h4⟩

theorem foldl_fillSeg_out : ∀ (ts : List Segment) (m : Vec16) (k : Fin 16),
    (ts.foldl fillSeg m) k = m k ∨
      ∃ s, s ∈ ts ∧ (ts.foldl fillSeg m) k = int16_wrap s.cls := by
  intro ts
  induction ts with
  | nil => intro m k; left; rfl
  | cons a t ih =>
    intro m k
    rw [List.foldl_cons]
    rcases ih (fillSeg m a) k with h | ⟨s, hs, he⟩
    · rw [h]
      simp only [fillSeg]
      split
      · right; exact ⟨a, by simp, rfl⟩
      · left; rfl
    · right; exact ⟨s, List.mem_cons_of_mem a hs, he⟩

theorem foldl_fillSeg_covered : ∀ (ts : List Segment) (m : Vec16) (k : Fin 16),
    (∃ s, s ∈ ts ∧ inSlot s k) →
    ∃ s, s ∈ ts ∧ (ts.foldl fillSeg m) k = int16_wrap s.cls := by
  intro ts
  induction ts with
  | nil =>
    intro m k h
    obtain ⟨s, hs, _⟩ := h
    exact absurd hs (List.not_mem_nil s)
  | cons a t ih =>
    intro m k h
    obtain ⟨s, hs, hin⟩ := h
    rw [List.foldl_cons]
    rcases List.mem_cons.mp hs with heq | hmem
    · subst heq
      rcases foldl_fillSeg_out t (fillSeg m s) k with h2 | ⟨s2, hs2, he⟩
      · refine ⟨s, by simp, ?_⟩
        rw [h2]
        simp only [fillSeg]
        exact if_pos hin
      · exact ⟨s2, List.mem_cons_of_mem s hs2, he⟩
    · obtain ⟨s2, hs2, he⟩ := ih (fillSeg m a) k ⟨s, hmem, hin⟩
      exact ⟨s2, List.mem_cons_of_mem a hs2, he⟩

/-! ## Majority-vote lemmas -/

theorem countEq_pos_of_mem : ∀ (l : List Nat) (v : Nat), v ∈ l → 0 < countEq l v := by
  intro l
  induction l with
  | nil => intro v hv; cases hv
  | cons a t ih =>
    intro v hv
    unfold countEq
    rw [List.filter_cons]
    rcases List.mem_cons.mp hv with rfl | hm
    · simp
    · have h2 := ih v hm
      unfold countEq at h2
      split
      · simp only [List.length_cons]
        omega
      · exact h2

theorem mem_of_countEq_pos : ∀ (l : List Nat) (v : Nat), 0 < countEq l v → v ∈ l := by
  intro l
  induction l with
  | nil => intro v hv; simp [countEq] at hv
  | cons a t ih =>
    intro v hv
    unfold countEq at hv
    rw [List.filter_cons] at hv
    by_cases hav : (a == v) = true
    · have : a = v := by simpa using hav
      subst this
      exact List.mem_cons_self a t
    · rw [if_neg hav] at hv
      exact List.mem_cons_of_mem a (ih v hv)

theorem mem_le_maxList : ∀ (l : List Nat) (x : Nat), x ∈ l → x ≤ maxList l := by
  intro l
  induction l with
  | nil => intro x hx; cases hx
  | cons a t ih =>
    intro x hx
    unfold maxList
    rw [List.foldr_cons]
    rcases List.mem_cons.mp hx with rfl | hm
    · exact Nat.le_max_left _ _
    · have := ih x hm
      unfold maxList at this
      exact le_trans this (Nat.le_max_right _ _)

theorem foldl_argmax_facts (l : List Nat) : ∀ (xs : List Nat) (b : Nat),
    (xs.foldl (argmaxStep l) b = b ∨ xs.foldl (argmaxStep l) b ∈ xs) ∧
      countEq l b ≤ countEq l (xs.foldl (argmaxStep l) b) ∧
      ∀ x, x ∈ xs → countEq l x ≤ countEq l (xs.foldl (argmaxStep l) b) := by
  intro xs
  induction xs with
  | nil => intro b; exact ⟨Or.inl rfl, le_refl _, by intro x hx; cases hx⟩
  | cons a t ih =>
    intro b
    rw [List.foldl_cons]
    obtain ⟨m1, m2, m3⟩ := ih (argmaxStep l b a)
    have hstep : countEq l b ≤ countEq l (argmaxStep l b a) ∧
        countEq l a ≤ countEq l (argmaxStep l b a) := by
      unfold argmaxStep
      split
      · constructor <;> omega
      · constructor <;> omega
    refine ⟨?_, le_trans hstep.1 m2, ?_⟩
    · rcases m1 with h | h
      · rw [h]
        unfold argmaxStep
        split
        · right; exact List.mem_cons_self a t
        · left; rfl
      · right; exact List.mem_cons_of_mem a h
    · intro x hx
      rcases List.mem_cons.mp hx with rfl | hm
      · exact le_trans hstep.2 m2
      · exact m3 x hm

theorem bincountArgmax_unique (l : List Nat) (v : Nat) (hv : v ∈ l)
    (huniq : ∀ w, w ∈ l → w ≠ v → countEq l w < countEq l v) :
    bincountArgmax l = v := by
  obtain ⟨m1, m2, m3⟩ := foldl_argmax_facts l (List.range (maxList l + 1)) 0
  have hvmem : v ∈ List.range (maxList l + 1) :=
    List.mem_range.mpr (by have := mem_le_maxList l v hv; omega)
  have hvr : countEq l v ≤ countEq l (bincountArgmax l) := m3 v hvmem
  have hvpos : 0 < countEq l v := countEq_pos_of_mem l v hv
  have hrmem : bincountArgmax l ∈ l := mem_of_countEq_pos l _ (by omega)
  by_contra hne
  exact absurd hvr (not_le.mpr (huniq (bincountArgmax l) hrmem hne))

/-! ## Refinement engine lemmas -/

theorem vals_all_zero_countEq (p : Vec16N) (h : ∀ x, x ∈ vals p → x = 0) :
    countEq (vals p) 0 = 16 := by
  have hlen : (vals p).length = 16 := by simp [vals]
  have : (vals p).filter (fun x => x == 0) = vals p := by
    apply List.filter_eq_self.mpr
    intro a ha
    simpa using h a ha
  unfold countEq
  rw [this, hlen]

theorem nzList_ne_nil_of_countEq {p : Vec16N} (h : countEq (vals p) 0 ≤ 10) :
    nzList p ≠ [] := by
  intro hnil
  have hall : ∀ x, x ∈ vals p → x = 0 := by
    intro x hx
    by_contra hne
    have : x ∈ nzList p := by
      unfold nzList
      apply List.mem_filter.mpr
      exact ⟨hx, by simpa using hne⟩
    rw [hnil] at this
    cases this
  have := vals_all_zero_countEq p hall
  omega

theorem refineRow_error : ∀ (row : List (Vec16N × Vec16N)),
    (∃ px, px ∈ row ∧ refinePixel px.1 px.2 = Except.error ()) →
    refineRow row = Except.error () := by
  intro row
  induction row with
  | nil =>
    intro h
    obtain ⟨px, hm, _⟩ := h
    cases hm
  | cons a t ih =>
    intro h
    obtain ⟨px, hm, he⟩ := h
    rcases List.mem_cons.mp hm with rfl | hmem
    · unfold refineRow
      rw [he]
    · unfold refineRow
      cases ha : refinePixel a.1 a.2 with
      | error e => cases e; rfl
      | ok v =>
        rw [ih ⟨px, hmem, he⟩]

theorem refineRows_error : ∀ (grid : List (List (Vec16N × Vec16N))),
    (∃ row, row ∈ grid ∧ refineRow row = Except.error ()) →
    refineRows grid = Except.error () := by
  intro grid
  induction grid with
  | nil =>
    intro h
    obtain ⟨row, hm, _⟩ := h
    cases hm
  | cons a t ih =>
    intro h
    obtain ⟨row, hm, he⟩ := h
    rcases List.mem_cons.mp hm with rfl | hmem
    · unfold refineRows
      rw [he]
    · unfold refineRows
      cases ha : refineRow a with
      | error e => cases e; rfl
      | ok v =>
        rw [ih ⟨row, hmem, he⟩]

/-! ## Claims -/

/-- C9 counterexample: the claim asserts that the grid initialization
value 255 is stored as -1 and the rasterizer fill value 254 as -2 through
int8 wrap-around.  In fact numpy value-based casting promotes
`np.zeros(..., np.int8) + 255` and `np.zeros(16, np.int8) + 254` to int16
arrays, so the literal values 255 and 254 are stored, not -1 and -2. -/
theorem c9_counterexample :
    gridInit = 255 ∧ mapInit = 254 ∧ gridInit ≠ -1 ∧ mapInit ≠ -2 := by decide

/-- C9 amended: because adding the python scalars 255 and 254 to an
int8-allocated array promotes it to int16 (numpy value-based casting),
the initialization values are stored literally as 255 and 254; every grid
slot starts at literal 255, and every rasterizer slot not written by a
segment holds literal 254 (written slots hold an int16-cast segment
class). -/
theorem c9_amended :
    gridInit = 255 ∧ mapInit = 254 ∧ (∀ (j : Nat) (k : Fin 16), initRow j k = 255) ∧
      ∀ (ts : List Segment) (k : Fin 16),
        blend2map ts k = 254 ∨
          ∃ s, s ∈ extrapTrail (extrapLead ts) ∧ blend2map ts k = int16_wrap s.cls := by
  refine ⟨by decide, by decide, ?_, ?_⟩
  · intro j k
    show gridInit = 255
    decide
  intro ts k
  unfold blend2map
  rcases foldl_fillSeg_out (extrapTrail (extrapLead ts)) (fun _ => mapInit) k with h | ⟨s, hs, he⟩
  · left
    rw [h]
    show mapInit = 254
    decide
  · right
    exact ⟨s, hs, he⟩

/-- C1 counterexample: for the two-segment list `[segC1a, segC1b]` with
classes 5 and 7, whose first segment starts on day 300 of 2001 (past day
270, triggering leading extrapolation), the synthesized leading segment
carries class 5 - the FIRST segment's class - not the second segment's
class 7 as the claim asserts; accordingly year slot 2001 of the output
holds 5, not 7. -/
theorem c1_counterexample :
    ordinalToDoy segC1a.start > 2001270 ∧
      extrapLead [segC1a, segC1b] =
        ({ start := doyToOrdinal 2001001, stop := segC1a.start, cls := 5 } : Segment) ::
          [segC1a, segC1b] ∧
      (5 : Int) ≠ 7 ∧ blend2map [segC1a, segC1b] 0 = 5 := by decide

/-- C1 amended: when leading extrapolation triggers, the synthesized
leading segment spans from 2001-001 to the original first segment's
start and carries the FIRST segment's class (the python code prepends a
copy of `ts[0]`); the trailing extrapolation appends a copy of the
current first element, so it too carries the first segment's class. -/
theorem c1_amended :
    (∀ (s0 s1 : Segment) (rest : List Segment),
        ordinalToDoy s0.start > 2001270 →
        extrapLead (s0 :: s1 :: rest) =
          ({ start := doyToOrdinal 2001001, stop := s0.start, cls := s0.cls } : Segment) ::
            s0 :: s1 :: rest) ∧
      ∀ (s0 : Segment) (rest : List Segment),
        ordinalToDoy (lastStop s0 rest) < 2016001 →
        extrapTrail (s0 :: rest) =
          (s0 :: rest) ++
            [{ start := lastStop s0 rest, stop := doyToOrdinal 2016365, cls := s0.cls }] := by
  constructor
  · intro s0 s1 rest h
    simp only [extrapLead]
    rw [if_pos h]
  · intro s0 rest h
    simp only [extrapTrail]
    rw [if_pos h]

/-- C1 amended witness: both extrapolations evaluated at concrete
segment lists. -/
theorem c1_amended_witness :
    extrapLead [segC1a, segC1b] =
      ({ start := doyToOrdinal 2001001, stop := segC1a.start, cls := segC1a.cls } : Segment) ::
        [segC1a, segC1b] ∧
      extrapTrail [segC1a] =
        [segC1a] ++ [{ start := lastStop segC1a [], stop := doyToOrdinal 2016365,
                       cls := segC1a.cls }] :=
  ⟨c1_amended.1 segC1a segC1b [] (by decide), c1_amended.2 segC1a [] (by decide)⟩

/-- C6: a segment start whose day-of-year is at most 270 is attributed
to its own calendar year, and one whose day-of-year is 271 or more to the
following calendar year, for every ordinal in the python date domain. -/
theorem c6_attribution (o : Nat) (h1 : 1 ≤ o) (h2 : o ≤ daysBeforeYear 10000) :
    (doyOf o ≤ 270 → startYearAdj o = yearOf o) ∧
      (271 ≤ doyOf o → startYearAdj o = yearOf o + 1) := by
  unfold startYearAdj
  rw [split_ordinalToDoy h1 h2]
  simp only
  constructor
  · intro h
    rw [if_neg (by omega)]
  · intro h
    rw [if_pos (by omega)]

/-- C6 witness: day-of-year exactly 270 of 2007 maps to 2007 itself, and
day-of-year 271 maps to 2008. -/
theorem c6_witness :
    startYearAdj (doyToOrdinal 2007270) = yearOf (doyToOrdinal 2007270) ∧
      startYearAdj (doyToOrdinal 2007271) = yearOf (doyToOrdinal 2007271) + 1 ∧
      yearOf (doyToOrdinal 2007270) = 2007 ∧ doyOf (doyToOrdinal 2007270) = 270 ∧
      yearOf (doyToOrdinal 2007271) = 2007 ∧ doyOf (doyToOrdinal 2007271) = 271 :=
  ⟨(c6_attribution _ (by decide) (by decide)).1 (by decide),
   (c6_attribution _ (by decide) (by decide)).2 (by decide),
   by decide, by decide, by decide, by decide⟩

/-- C7: for every non-empty, time-ordered, gap-free segment list covering
the full canonical window (start at or before 2001-001, end at or after
2016-365), with well-formed segments (start at least 1, end at most the
python date maximum, start no later than end) and valid class codes
(between 0 and 253), every one of the 16 output slots equals the class of
some input segment and is never 254 or 255. -/
theorem c7_full_coverage (s0 : Segment) (rest : List Segment)
    (_hord : orderedB s0 rest = true)
    (hch : chainB s0 rest = true)
    (hse : ∀ s, s ∈ s0 :: rest → s.start ≤ s.stop)
    (hrange : ∀ s, s ∈ s0 :: rest → 1 ≤ s.start ∧ s.stop ≤ daysBeforeYear 10000)
    (hcls : ∀ s, s ∈ s0 :: rest → 0 ≤ s.cls ∧ s.cls ≤ 253)
    (hc1 : s0.start ≤ doyToOrdinal 2001001)
    (hc2 : doyToOrdinal 2016365 ≤ lastStop s0 rest) :
    ∀ k : Fin 16, ∃ s, s ∈ s0 :: rest ∧ blend2map (s0 :: rest) k = s.cls ∧
      s.cls ≠ 254 ∧ s.cls ≠ 255 := by
  intro k
  have hno1 : extrapLead (s0 :: rest) = s0 :: rest :=
    extrapLead_noop (hrange s0 (by simp)).1 hc1
  have hlmem := lastSeg_mem rest s0
  have hno2 : extrapTrail (s0 :: rest) = s0 :: rest :=
    extrapTrail_noop (hrange _ hlmem).2 hc2
  have hkY : (2001 : Nat) ≤ 2001 + k.val := by omega
  have hkY2 : 2001 + k.val ≤ 2016 := by omega
  have hm1 : daysBeforeYear 2001 ≤ daysBeforeYear (2001 + k.val) :=
    daysBeforeYear_mono (by omega)
  have hm2 : daysBeforeYear (2001 + k.val) ≤ daysBeforeYear 2016 :=
    daysBeforeYear_mono (by omega)
  have he1 : doyToOrdinal 2001001 = daysBeforeYear 2001 + 1 := by decide
  have he2 : doyToOrdinal 2016365 = daysBeforeYear 2016 + 365 := by decide
  obtain ⟨s, hsmem, hs1, hs2⟩ := exists_covering rest s0
    (daysBeforeYear (2001 + k.val) + 270) hch (by omega) (by omega)
  have hrs := hrange s hsmem
  have hses := hse s hsmem
  have hin : inSlot s k := by
    constructor
    · exact startYearAdj_le hrs.1 hkY hkY2 hs1
    · exact endYearOf_ge (by omega) hrs.2 hs2
  obtain ⟨s2, hs2mem, heq⟩ :=
    foldl_fillSeg_covered (s0 :: rest) (fun _ => mapInit) k ⟨s, hsmem, hin⟩
  have hc := hcls s2 hs2mem
  refine ⟨s2, hs2mem, ?_, by omega, by omega⟩
  unfold blend2map
  rw [hno1, hno2, heq]
  exact int16_wrap_id (by omega) (by omega)

/-- C7 witness: a two-segment list covering 2001-001 through 2016-365
with classes 5 and 7; slot 0 of the output is one of those classes. -/
theorem c7_witness :
    ∃ s, s ∈ [segW0, segW1] ∧ blend2map [segW0, segW1] 0 = s.cls ∧
      s.cls ≠ 254 ∧ s.cls ≠ 255 :=
  c7_full_coverage segW0 [segW1] (by decide) (by decide) (by decide) (by decide)
    (by decide) (by decide) (by decide) 0

/-- C4: in a processed row, every pixel whose 16 slots are all still 255
after per-pixel rasterization is filled (in every slot) with the
`bincount`-argmax of its 16-value land-cover context vector, and that
argmax equals the single most frequent class whenever one exists. -/
theorem c4_fallback (recs : List (Nat × List Segment)) (samples : Nat)
    (lcrow : Nat → List Nat) (j : Nat) (hj : j < samples)
    (hall : ∀ k : Fin 16, writeRecords initRow recs j k = 255) :
    (∀ k : Fin 16, processRow recs samples lcrow j k =
        int16_wrap (bincountArgmax (lcrow j))) ∧
      ∀ v, v ∈ lcrow j →
        (∀ w, w ∈ lcrow j → w ≠ v → countEq (lcrow j) w < countEq (lcrow j) v) →
        bincountArgmax (lcrow j) = v := by
  constructor
  · intro k
    unfold processRow fallbackRow
    rw [if_pos ⟨hj, hall⟩]
  · intro v hv huniq
    exact bincountArgmax_unique (lcrow j) v hv huniq

/-- C4 witness: a pixel with no segment records (all slots still 255)
and the context vector `[10,10,10,12,12,10,...]` is fallback-filled with
class 10. -/
theorem c4_witness :
    processRow [] 1 lcWf 0 0 = int16_wrap (bincountArgmax (lcWf 0)) ∧
      bincountArgmax (lcWf 0) = 10 ∧ int16_wrap 10 = 10 :=
  ⟨(c4_fallback [] 1 lcWf 0 (by decide) (by decide)).1 0,
   (c4_fallback [] 1 lcWf 0 (by decide) (by decide)).2 10 (by decide) (by decide),
   by decide⟩

/-- C5 counterexample: a run whose single line has a cache file
containing zero pixel records still increments the success count (the
code increments whenever the cache is found, before checking whether any
pixel was resolved from segments), so the count is 1 although no pixel of
the row was resolved from segments (slot (0,0) still holds the
initialization value). -/
theorem c5_counterexample :
    (getBlendLoop lcWg 1 0 [some []]).2 = 1 ∧
      (getBlendLoop lcWg 1 0 [some []]).2 ≠ 0 ∧
      writeRecords initRow [] 0 0 = 255 := by decide

/-- C5 amended: the success count returned by the line loop equals the
number of lines whose segment cache was found, regardless of whether any
pixel in those lines was resolved from segments. -/
theorem c5_amended (lc : Nat → Nat → List Nat) (samples : Nat) :
    ∀ (i : Nat) (caches : List (Option (List (Nat × List Segment)))),
      (getBlendLoop lc samples i caches).2 = (caches.filter Option.isSome).length := by
  intro i caches
  induction caches generalizing i with
  | nil => rfl
  | cons c cs ih =>
    cases c with
    | some recs =>
      simp only [getBlendLoop, List.filter_cons]
      rw [ih (i + 1)]
      simp
    | none =>
      simp only [getBlendLoop, List.filter_cons]
      rw [ih (i + 1)]
      simp

set_option maxRecDepth 100000 in
/-- C3 counterexample: a two-row grid whose first row contains a pixel
that raises (context code 99 sends rule 1's lookup past the end of `m2c`)
makes the whole refinement run return status 3 - the second, perfectly
processable row is never refined - whereas that single row alone refines
fine.  The claim that processing continues with the remaining rows is
therefore false: the `try` in `refine_results` wraps the entire grid
loop, not one row. -/
theorem c3_counterexample :
    refine_results [[(pBad, plcBad)], [(pGood, plcGood)]] = Except.error 3 ∧
      refineOk (refineRows [[(pGood, plcGood)]]) = true := by
  constructor
  · rfl
  · rfl

/-- C3 amended: an exception raised while refining any pixel of any row
aborts the entire run: `refine_results` returns status code 3 and no
refined grid is produced (remaining rows are not processed). -/
theorem c3_amended (grid : List (List (Vec16N × Vec16N)))
    (h : ∃ row, row ∈ grid ∧ ∃ px, px ∈ row ∧ refinePixel px.1 px.2 = Except.error ()) :
    refine_results grid = Except.error 3 := by
  obtain ⟨row, hrow, hpx⟩ := h
  have h1 : refineRow row = Except.error () := refineRow_error row hpx
  have h2 : refineRows grid = Except.error () := refineRows_error grid ⟨row, hrow, h1⟩
  unfold refine_results
  rw [h2]

set_option maxRecDepth 100000 in
/-- C3 amended witness: the failing one-row grid evaluated concretely. -/
theorem c3_amended_witness : refine_results [[(pBad, plcBad)]] = Except.error 3 :=
  c3_amended [[(pBad, plcBad)]]
    ⟨[(pBad, plcBad)], List.mem_cons_self _ _, (pBad, plcBad), List.mem_cons_self _ _, rfl⟩

/-- C2 counterexample: for the pixel `pC2` (urban at slots 0-7) and
context `plcC2` (cropland 12 at those slots, grassland 10 elsewhere), the
8 urban-not-urban-context positions exist and their own majority context
class is 12 (cropland), so the claim says they are relabeled to 12; the
code instead uses the majority over the whole 16-value context vector,
which is 10, and relabels them to 10. -/
theorem c2_counterexample :
    (urbanNotCtx pC2 plcC2).length = 8 ∧
      bincountArgmax ((urbanNotCtx pC2 plcC2).map plcC2) = 12 ∧
      bincountArgmax (vals plcC2) = 10 ∧
      rule5 pC2 plcC2 0 = 10 ∧ rule5_spec pC2 plcC2 0 = 12 ∧
      rule5 pC2 plcC2 0 ≠ rule5_spec pC2 plcC2 0 := by decide

/-- C2 amended: in rule 5, when at least 8 positions are urban in the
fine class but not urban in context and the majority class of the WHOLE
16-value context vector is grassland (10) or cropland (12), exactly those
positions are relabeled to that whole-vector majority class. -/
theorem c2_amended (p plc : Vec16N) (h8 : 8 ≤ (urbanNotCtx p plc).length)
    (hlab : bincountArgmax (vals plc) = 10 ∨ bincountArgmax (vals plc) = 12) :
    ∀ k : Fin 16,
      (p k = 13 ∧ plc k ≠ 13 → rule5 p plc k = bincountArgmax (vals plc)) ∧
        (¬(p k = 13 ∧ plc k ≠ 13) → rule5 p plc k = p k) := by
  intro k
  rcases hlab with h | h
  · have hr : rule5 p plc = fun k => if p k = 13 ∧ plc k ≠ 13 then 10 else p k := by
      unfold rule5
      rw [if_pos h8, if_pos h]
    rw [hr, h]
    constructor
    · intro hk
      simp only [if_pos hk]
    · intro hk
      simp only [if_neg hk]
  · have hr : rule5 p plc = fun k => if p k = 13 ∧ plc k ≠ 13 then 12 else p k := by
      unfold rule5
      rw [if_pos h8, if_neg (by omega), if_pos h]
    rw [hr, h]
    constructor
    · intro hk
      simp only [if_pos hk]
    · intro hk
      simp only [if_neg hk]

/-- C2 amended witness: nine urban slots in an all-grassland context are
relabeled to the whole-vector majority 10; a non-urban slot is left
unchanged. -/
theorem c2_amended_witness :
    rule5 pW2 plcW2 0 = bincountArgmax (vals plcW2) ∧ rule5 pW2 plcW2 15 = pW2 15 :=
  ⟨(c2_amended pW2 plcW2 (by decide) (Or.inl (by decide)) 0).1 (by decide),
   (c2_amended pW2 plcW2 (by decide) (Or.inl (by decide)) 15).2 (by decide)⟩

/-- C8: the engine chains the six rules in order.  The vector `pC8`
satisfies rule 1's guard (slot 1 unclassified) and rule 2's guard (slot 0
plantation 18, slot 3 not plantation); rule 1's forward fill turns slot 1
into 18, so rule 2 - evaluated on rule 1's output `qC8` - rewrites slot 1
to 5, while rule 2 on the original vector would leave slot 1 at 0.  The
engine's final output agrees with rule 2 applied to rule 1's output. -/
theorem c8_rule_order :
    (0 ∈ vals pC8) ∧ pC8 0 = 18 ∧ pC8 3 ≠ 18 ∧
      (∀ k : Fin 16, okAt (rule1 pC8 plcC8) k = some (qC8 k)) ∧
      rule2 qC8 1 = 5 ∧ rule2 pC8 1 = 0 ∧
      (∀ k : Fin 16, okAt (refinePixel pC8 plcC8) k = some (rule2 qC8 k)) := by decide

/-- C10: rule 1's value lookups are in bounds: when at most 10 of the 16
slots are unclassified the classified-values list is non-empty (so its
first and last elements exist); when slot 0 is classified the forward
fill performs no work at iteration 0 (so the only reads of slot `k - 1`
happen at `k` at least 1, where `Fin` subtraction is real subtraction);
and whenever the `m2c` context lookup is in bounds, rule 1 returns
normally. -/
theorem c10_rule1_safety (p plc : Vec16N) :
    (countEq (vals p) 0 ≤ 10 → nzList p ≠ []) ∧
      (p 0 ≠ 0 → forwardFill p = ((List.finRange 16).drop 1).foldl ffStep p) ∧
      (∀ k : Fin 16, k ≠ 0 → (k - 1).val + 1 = k.val) ∧
      (bincountArgmax ((ucMask p).map plc) < m2c.length →
        ∃ v, rule1 p plc = Except.ok v) := by
  refine ⟨nzList_ne_nil_of_countEq, ?_, by decide, ?_⟩
  · intro h0
    have hfr : List.finRange 16 = (0 : Fin 16) :: (List.finRange 16).drop 1 := by decide
    unfold forwardFill
    nth_rewrite 1 [hfr]
    rw [List.foldl_cons]
    have hs : ffStep p 0 = p := by
      unfold ffStep
      rw [if_neg h0]
    rw [hs]
  · intro hm
    unfold rule1
    by_cases hz : 0 ∈ vals p
    · rw [if_pos hz, if_pos hm]
      by_cases h10 : countEq (vals p) 0 > 10
      · rw [if_pos h10]
        exact ⟨_, rfl⟩
      · rw [if_neg h10]
        by_cases hp0 : p 0 = 0
        · rw [if_pos hp0]
          by_cases hpl : m2c.getD (bincountArgmax ((ucMask p).map plc)) 0 = 13 ∨
              m2c.getD (bincountArgmax ((ucMask p).map plc)) 0 = 25
          · rw [if_pos hpl]
            exact ⟨_, rfl⟩
          · rw [if_neg hpl, if_pos (nzList_ne_nil_of_countEq (by omega))]
            exact ⟨_, rfl⟩
        · rw [if_neg hp0]
          by_cases hp15 : p 15 = 0
          · rw [if_pos hp15]
            by_cases hpl : m2c.getD (bincountArgmax ((ucMask p).map plc)) 0 = 13 ∨
                m2c.getD (bincountArgmax ((ucMask p).map plc)) 0 = 25
            · rw [if_pos hpl]
              exact ⟨_, rfl⟩
            · rw [if_neg hpl, if_pos (nzList_ne_nil_of_countEq (by omega))]
              exact ⟨_, rfl⟩
          · rw [if_neg hp15]
            by_cases h3 : countEq (vals p) 0 < 3
            · rw [if_pos h3]
              exact ⟨_, rfl⟩
            · rw [if_neg h3]
              exact ⟨_, rfl⟩
    · rw [if_neg hz]
      exact ⟨_, rfl⟩

/-- C10 witness: for `pW10` (slot 0 classified, one unclassified slot)
all three bounds facts are discharged at a concrete input. -/
theorem c10_witness :
    nzList pW10 ≠ [] ∧
      forwardFill pW10 = ((List.finRange 16).drop 1).foldl ffStep pW10 ∧
      (∃ v, rule1 pW10 plcW10 = Except.ok v) :=
  ⟨(c10_rule1_safety pW10 plcW10).1 (by decide),
   (c10_rule1_safety pW10 plcW10).2.1 (by decide),
   (c10_rule1_safety pW10 plcW10).2.2.2 (by decide)⟩
